import Mathlib

/-!
Verification of the application-portal submission pipeline (src/app.py).

The program is shallowly embedded: strings are lists of characters,
Python's exception-based control flow becomes explicit outcome values,
and the effectful collaborators (file system, SMTP relay) become boolean
oracles saying whether each effect raises.  Every definition mirrors the
corresponding Python function or block of `app.py`; the doc comments name
the source lines each definition embeds.
-/

/-- Python strings are modelled as lists of characters. -/
abbrev Str := List Char

/-- The double-quote character (written numerically to keep string fields
readable next to char literals). -/
def dq : Char := Char.ofNat 34

/-- Model of Python's `str.isspace` class used by `\s` in `re` and by
`str.strip` (ASCII whitespace; the inputs at issue are ASCII). -/
def isPySpace (c : Char) : Bool :=
  c = ' ' || c = '\t' || c = '\n' || c = '\r' || c = Char.ofNat 11 || c = Char.ofNat 12

/-- Python `str.strip()`: drop whitespace from both ends. -/
def pyStrip (s : Str) : Str :=
  ((s.dropWhile isPySpace).reverse.dropWhile isPySpace).reverse

/-- Python `x or y` on strings: `y` when `x` is empty (falsy), else `x`. -/
def pyOr (x y : Str) : Str := if x = [] then y else x

/-- Character class `[^\s@]` of `EMAIL_REGEX` (app.py line 43). -/
def okC (c : Char) : Bool := !(isPySpace c) && !(c = '@')

/-- `true` when the list contains a `'.'` at some position that is not the
last position.  Used to decide whether `[^\s@]+\.[^\s@]+` can match. -/
def dotNotLast : Str → Bool
  | [] => false
  | [_] => false
  | c :: rest => c = '.' || dotNotLast rest

/-- Core matcher for `EMAIL_REGEX = ^[^\s@]+@[^\s@]+\.[^\s@]+$` (app.py
line 43) against a whole string: a nonempty `[^\s@]` run, `'@'`, then a
nonempty `[^\s@]` run containing a dot that has at least one character on
each side. -/
def emailRegexCore (cs : Str) : Bool :=
  let a := cs.takeWhile (fun c => !(c = '@'))
  match cs.dropWhile (fun c => !(c = '@')) with
  | [] => false
  | _ :: rest =>
      !a.isEmpty && a.all okC && rest.all okC &&
      (match rest with
       | [] => false
       | _ :: t => dotNotLast t)

/-- `EMAIL_REGEX.match` (app.py line 43): Python's `$` also matches just
before a single trailing newline, so a match may end there. -/
def emailRegexMatch (cs : Str) : Bool :=
  emailRegexCore cs ||
    (cs.getLast? = some '\n' && emailRegexCore cs.dropLast)

/-- `is_email` (app.py lines 45-46): strip the string, then match
`EMAIL_REGEX` against it. -/
def is_email (s : Str) : Bool := emailRegexMatch (pyStrip s)

/-- Character class kept by `sanitize_filename` (app.py line 49):
`[a-zA-Z0-9_.-]`. -/
def allowedChar (c : Char) : Bool :=
  c.isAlpha || c.isDigit || c = '_' || c = '.' || c = '-'

/-- Scanner for `re.sub(r"[^a-zA-Z0-9_.-]+", "_", ·)` (app.py line 49):
`inRun` records whether the previous character was part of a disallowed
run, so each maximal such run emits exactly one underscore. -/
def subRunsGo (inRun : Bool) : Str → Str
  | [] => []
  | c :: t =>
      if allowedChar c then c :: subRunsGo false t
      else if inRun then subRunsGo true t else '_' :: subRunsGo true t

/-- `re.sub(r"[^a-zA-Z0-9_.-]+", "_", ·)` (app.py line 49): each maximal
run of disallowed characters becomes a single underscore. -/
def subDisallowedRuns (s : Str) : Str := subRunsGo false s

/-- `sanitize_filename` (app.py lines 48-49): strip, replace disallowed
runs, truncate to 80 characters. -/
def sanitize_filename (s : Str) : Str :=
  (subDisallowedRuns (pyStrip s)).take 80

/-- Digit extraction for decimal rendering, structurally recursive on a
fuel bound so it evaluates inside the kernel. -/
def pyIntStrGo : Nat → Nat → Str
  | 0, _ => []
  | _ + 1, 0 => []
  | fuel + 1, n + 1 =>
      pyIntStrGo fuel ((n + 1) / 10) ++ [Nat.digitChar ((n + 1) % 10)]

/-- Decimal rendering of a natural number, as Python's `str(int)`
produces it (most significant digit first, `"0"` for zero). -/
def pyIntStr (n : Nat) : Str :=
  if n = 0 then ['0'] else pyIntStrGo n n

/-- `create_app_id` (app.py lines 51-52): `f"APP-{int(time.time())}"`,
modelled over the integer Unix timestamp `t` at call time. -/
def create_app_id (t : Nat) : Str := "APP-".data ++ pyIntStr t

/-- The saved resume filename `f"{app_id}_{safe_name}.pdf"` with
`safe_name = sanitize_filename(full_name or "applicant")` (app.py lines
222-223). -/
def resume_name_of (t : Nat) (full_name : Str) : Str :=
  create_app_id t ++ '_' :: sanitize_filename (pyOr full_name "applicant".data) ++ ".pdf".data

/-- A character forcing `csv.writer` (QUOTE_MINIMAL, default dialect) to
quote a field: the delimiter, the quote character, or a line-terminator
character. -/
def csvSpecial (c : Char) : Bool := c = ',' || c = dq || c = '\r' || c = '\n'

/-- Double every quote character, as `csv.writer` escapes quotes. -/
def escQuotes (s : Str) : Str :=
  s.flatMap (fun c => if c = dq then [dq, dq] else [c])

/-- One field as `csv.writer` emits it: quoted (with doubled inner
quotes) exactly when it contains a special character. -/
def csvEncodeField (s : Str) : Str :=
  if s.any csvSpecial then dq :: escQuotes s ++ [dq] else s

/-- A record's fields joined with the `','` delimiter, each encoded. -/
def csvEncodeFields : List Str → Str
  | [] => []
  | [f] => csvEncodeField f
  | f :: fs => csvEncodeField f ++ ',' :: csvEncodeFields fs

/-- The `\r\n` line terminator `csv.writer` appends to each row. -/
def crlf : Str := ['\r', '\n']

/-- One encoded row including its terminator. -/
def csvEncodeRow (fields : List Str) : Str := csvEncodeFields fields ++ crlf

/-- The fixed header column names (app.py lines 58-64). -/
def headerFields : List Str :=
  ["app_id".data, "timestamp_iso".data, "full_name".data, "email".data, "phone".data,
   "position".data, "years_experience".data, "expected_salary".data, "location".data,
   "linkedin".data, "cover_letter".data,
   "referred".data, "ref_name".data, "ref_emp_id".data, "ref_email".data,
   "resume_filename".data]

/-- The header row as written to a fresh file. -/
def headerLine : Str := csvEncodeRow headerFields

/-- `write_csv_header_if_needed` (app.py lines 54-64).  The file is
`none` when it does not yet exist; creating it writes exactly the header
row, an existing file is left untouched. -/
def write_csv_header_if_needed (file : Option Str) : Str :=
  match file with
  | none => headerLine
  | some content => content

/-- `append_application_row` (app.py lines 66-87): ensure the header,
then append one encoded row. -/
def append_application_row (file : Option Str) (row : List Str) : Str :=
  write_csv_header_if_needed file ++ csvEncodeRow row

/-- Repeatedly append rows, threading the file contents. -/
def runAppends (file : Option Str) : List (List Str) → Option Str
  | [] => file
  | r :: rs => runAppends (some (append_application_row file r)) rs

/-- States of the `csv.reader` field scanner: at the start of a field,
inside an unquoted field, inside a quoted field, or just after a quote
character inside a quoted field. -/
inductive CsvSt
  | fieldStart
  | unquoted
  | quoted
  | afterQuote
deriving DecidableEq

/-- One record as `csv.reader` scans it (non-strict dialect): `acc` holds
the completed fields, `cur` the field being built.  An unquoted
line-terminator character ends the record; end of input ends the current
field. -/
def csvScan (st : CsvSt) (acc : List Str) (cur : Str) : Str → List Str
  | [] => acc ++ [cur]
  | c :: rest =>
      match st with
      | .fieldStart =>
          if c = dq then csvScan .quoted acc cur rest
          else if c = ',' then csvScan .fieldStart (acc ++ [cur]) [] rest
          else if c = '\r' ∨ c = '\n' then acc ++ [cur]
          else csvScan .unquoted acc (cur ++ [c]) rest
      | .unquoted =>
          if c = ',' then csvScan .fieldStart (acc ++ [cur]) [] rest
          else if c = '\r' ∨ c = '\n' then acc ++ [cur]
          else csvScan .unquoted acc (cur ++ [c]) rest
      | .quoted =>
          if c = dq then csvScan .afterQuote acc cur rest
          else csvScan .quoted acc (cur ++ [c]) rest
      | .afterQuote =>
          if c = dq then csvScan .quoted acc (cur ++ [dq]) rest
          else if c = ',' then csvScan .fieldStart (acc ++ [cur]) [] rest
          else if c = '\r' ∨ c = '\n' then acc ++ [cur]
          else csvScan .unquoted acc (cur ++ [c]) rest

/-- Parse one record (its terminator already consumed) as `csv.reader`
does; an empty line yields no fields. -/
def csvParseRow (s : Str) : List Str :=
  match s with
  | [] => []
  | _ => csvScan .fieldStart [] [] s

/-- Resume and attachment bytes. -/
abbrev Bytes := List Nat

/-- An uploaded file as the form boundary supplies it: raw bytes and the
declared content type (`resume_file.type`).  The upload's own filename is
never used by the program. -/
structure UploadedFile where
  content : Bytes
  type : Str
deriving DecidableEq

/-- The MIME type `send_email` declares for an attachment (app.py lines
106-108): hardcoded `maintype="application", subtype="pdf"` — the code
comments `# Assume PDF for resume` and never consults the filename. -/
def attachMimeOf (_name : Str) : Str × Str := ("application".data, "pdf".data)

/-- The message `send_email` (app.py lines 89-112) constructs before
transmitting: subject, body, recipient, optional reply-to (dropped when
falsy), and at most one attachment (present only when both the bytes and
the name are truthy), tagged with `attachMimeOf`'s constant MIME type. -/
structure BuiltEmail where
  subject : Str
  body : Str
  toAddr : Str
  replyTo : Option Str
  attach : Option (Bytes × Str × Str × Str)
deriving DecidableEq

/-- `send_email`'s message construction (app.py lines 98-108). -/
def send_email_message (subject body toAddr : Str) (attachment : Option Bytes)
    (attachmentName : Option Str) (replyTo : Option Str) : BuiltEmail :=
  { subject := subject
    body := body
    toAddr := toAddr
    replyTo := match replyTo with
      | some r => if r = [] then none else some r
      | none => none
    attach := match attachment, attachmentName with
      | some bs, some nm =>
          if bs = [] ∨ nm = [] then none
          else some (bs, (attachMimeOf nm).1, (attachMimeOf nm).2, nm)
      | _, _ => none }

/-- The widget values in `st.session_state` when the form is submitted,
before the handler's extraction (app.py lines 171-185).  A `none` models
a key the UI never wrote. -/
structure Session where
  full_name : Option Str
  email : Option Str
  phone : Option Str
  position : Option Str
  years_experience : Option ℚ
  expected_salary : Option Str
  location : Option Str
  linkedin : Option Str
  cover_letter : Option Str
  consent : Option Bool
  referred_toggle : Option Bool
  ref_name : Option Str
  ref_emp_id : Option Str
  ref_email : Option Str
  resume_file : Option UploadedFile
deriving DecidableEq

/-- The handler's local variables after extraction (app.py lines
171-185): strings stripped, missing values defaulted, referral fields
blanked when the toggle is off. -/
structure Fields where
  full_name : Str
  email : Str
  phone : Str
  position : Str
  years_experience : Option ℚ
  expected_salary : Str
  location : Str
  linkedin : Str
  cover_letter : Str
  consent : Bool
  referred : Bool
  ref_name : Str
  ref_emp_id : Str
  ref_email : Str
  resume : Option UploadedFile
deriving DecidableEq

/-- `(st.session_state.get(k) or "").strip()`. -/
def getStripped (v : Option Str) : Str := pyStrip (v.getD [])

/-- The extraction block (app.py lines 171-185). -/
def extract (s : Session) : Fields :=
  let referred := s.referred_toggle.getD false
  { full_name := getStripped s.full_name
    email := getStripped s.email
    phone := getStripped s.phone
    position := getStripped s.position
    years_experience := s.years_experience
    expected_salary := getStripped s.expected_salary
    location := getStripped s.location
    linkedin := getStripped s.linkedin
    cover_letter := getStripped s.cover_letter
    consent := s.consent.getD false
    referred := referred
    ref_name := if referred then getStripped s.ref_name else []
    ref_emp_id := if referred then getStripped s.ref_emp_id else []
    ref_email := if referred then getStripped s.ref_email else []
    resume := s.resume_file }

/-- Error message of app.py line 189. -/
def msgFullName : Str := "Full Name is required.".data
/-- Error message of app.py line 191. -/
def msgEmail : Str := "Valid Email is required.".data
/-- Error message of app.py line 193. -/
def msgPosition : Str := "Position is required.".data
/-- Error message of app.py line 195. -/
def msgYears : Str := "Years of Experience is required.".data
/-- Error message of app.py line 197. -/
def msgResume : Str := "Resume PDF is required.".data
/-- Error message of app.py line 199. -/
def msgConsent : Str := "Consent is required to submit the application.".data
/-- Error message of app.py line 204. -/
def msgRefName : Str := "Referrer Name is required.".data
/-- Error message of app.py line 206. -/
def msgRefEmpId : Str := "Referrer Employee ID is required.".data
/-- Error message of app.py line 208. -/
def msgRefEmail : Str := "Valid Referrer Email is required.".data
/-- Error message of app.py line 212. -/
def msgResumeType : Str := "Resume must be a PDF file.".data

/-- The declared content type the resume must carry (app.py line 211). -/
def pdfType : Str := "application/pdf".data

/-- One conditional `errors.append` (a singleton when the rule is
violated, else nothing). -/
def gate (c : Prop) [Decidable c] (m : Str) : List Str := if c then [m] else []

/-- The resume content-type check (app.py lines 210-212): only runs when
a resume file is present. -/
def resumeTypeErrs (r : Option UploadedFile) : List Str :=
  match r with
  | none => []
  | some rf => gate (¬ rf.type = pdfType) msgResumeType

/-- The validation block (app.py lines 188-212), accumulating one message
per violated rule in the code's order. -/
def validationErrors (f : Fields) : List Str :=
  gate (f.full_name = []) msgFullName ++
  gate (is_email f.email = false) msgEmail ++
  gate (f.position = []) msgPosition ++
  gate (f.years_experience = none) msgYears ++
  gate (f.resume = none) msgResume ++
  gate (f.consent = false) msgConsent ++
  (if f.referred then
    gate (f.ref_name = []) msgRefName ++
    gate (f.ref_emp_id = []) msgRefEmpId ++
    gate (is_email f.ref_email = false) msgRefEmail
   else []) ++
  resumeTypeErrs f.resume

/-- The full ordered list of possible validation messages, in the order
the code checks them. -/
def allMsgs : List Str :=
  [msgFullName, msgEmail, msgPosition, msgYears, msgResume, msgConsent,
   msgRefName, msgRefEmpId, msgRefEmail, msgResumeType]

/-- Python `str(x)` for the years-of-experience value: renders the float
through the supplied renderer, or `"None"` when the key was missing. -/
def yearsStr (render : ℚ → Str) (y : Option ℚ) : Str :=
  match y with
  | some v => render v
  | none => "None".data

/-- The `record` dict (app.py lines 235-252): all values as the strings
`csv.writer` will emit.  `render` stands for Python's `str(float)`. -/
structure Record where
  app_id : Str
  timestamp_iso : Str
  full_name : Str
  email : Str
  phone : Str
  position : Str
  years_experience : Str
  expected_salary : Str
  location : Str
  linkedin : Str
  cover_letter : Str
  referred : Str
  ref_name : Str
  ref_emp_id : Str
  ref_email : Str
  resume_filename : Str
deriving DecidableEq

/-- Building the `record` dict (app.py lines 235-252) from the extracted
fields, the generated id, the ISO timestamp string and the resume
filename. -/
def buildRecord (f : Fields) (appId tsIso resumeName : Str) (render : ℚ → Str) : Record :=
  { app_id := appId
    timestamp_iso := tsIso
    full_name := f.full_name
    email := f.email
    phone := f.phone
    position := f.position
    years_experience := yearsStr render f.years_experience
    expected_salary := f.expected_salary
    location := f.location
    linkedin := f.linkedin
    cover_letter := f.cover_letter
    referred := if f.referred then "Yes".data else "No".data
    ref_name := f.ref_name
    ref_emp_id := f.ref_emp_id
    ref_email := f.ref_email
    resume_filename := resumeName }

/-- The row `append_application_row` writes for a record, in the fixed
header column order (app.py lines 70-87). -/
def recordRow (r : Record) : List Str :=
  [r.app_id, r.timestamp_iso, r.full_name, r.email, r.phone,
   r.position, r.years_experience, r.expected_salary, r.location,
   r.linkedin, r.cover_letter,
   r.referred, r.ref_name, r.ref_emp_id, r.ref_email,
   r.resume_filename]

/-- The configuration values the submission handler reads (app.py lines
26 and 33). -/
structure Config where
  hrEmail : Str
  fromName : Str
deriving DecidableEq

/-- The always-present first eleven HR body lines (app.py lines
270-282). -/
def hrBaseLines (f : Fields) (appId tsIso : Str) (render : ℚ → Str) : List Str :=
  ["Application ID: ".data ++ appId,
   "Submitted (UTC): ".data ++ tsIso,
   "Name: ".data ++ f.full_name,
   "Email: ".data ++ f.email,
   "Phone: ".data ++ f.phone,
   "Position: ".data ++ f.position,
   "Experience (yrs): ".data ++ yearsStr render f.years_experience,
   "Expected Salary: ".data ++ f.expected_salary,
   "Location: ".data ++ f.location,
   "LinkedIn: ".data ++ f.linkedin,
   "Referred: ".data ++ (if f.referred then "Yes".data else "No".data)]

/-- The referrer lines appended when `referred` (app.py lines 283-288). -/
def hrRefLines (f : Fields) : List Str :=
  ["Referrer Name: ".data ++ f.ref_name,
   "Referrer Emp ID: ".data ++ f.ref_emp_id,
   "Referrer Email: ".data ++ f.ref_email]

/-- The cover-letter text block appended when the notes are non-empty
(app.py lines 289-290). -/
def hrCoverLines (f : Fields) : List Str :=
  [[], "Cover Letter:".data, f.cover_letter]

/-- `hr_body_lines` (app.py lines 270-290). -/
def hrBodyLines (f : Fields) (appId tsIso : Str) (render : ℚ → Str) : List Str :=
  hrBaseLines f appId tsIso render ++
  (if f.referred then hrRefLines f else []) ++
  (if ¬ f.cover_letter = [] then hrCoverLines f else [])

/-- `"\n".join` (app.py line 292). -/
def joinNL (lines : List Str) : Str := List.intercalate ['\n'] lines

/-- The applicant confirmation message (app.py lines 261-267 and 306). -/
def applicantMsg (cfg : Config) (f : Fields) (appId : Str) : BuiltEmail :=
  send_email_message
    ("Application Submitted Successfully — ".data ++ appId)
    ("Hi ".data ++ f.full_name ++
     ",\n\nThanks for applying for the ".data ++ f.position ++
     " role. We’ve received your application (ID: ".data ++ appId ++
     ").\nOur team will review it and get back to you.\n\nBest,\n".data ++ cfg.fromName)
    f.email none none (some cfg.hrEmail)

/-- The HR notification message (app.py lines 269-292 and 309). -/
def hrMsg (cfg : Config) (f : Fields) (appId tsIso : Str) (render : ℚ → Str)
    (resumeBytes : Bytes) (resumeName : Str) : BuiltEmail :=
  send_email_message
    ("[New Application] ".data ++ f.full_name ++ " — ".data ++ f.position ++
     " — ".data ++ appId)
    (joinNL (hrBodyLines f appId tsIso render))
    cfg.hrEmail (some resumeBytes) (some resumeName) none

/-- The referrer notice message (app.py lines 294-301 and 313). -/
def refMsg (cfg : Config) (f : Fields) (appId : Str) : BuiltEmail :=
  send_email_message
    ("You Referred an Applicant — ".data ++ f.full_name ++ " for ".data ++
     f.position ++ " (".data ++ appId ++ ")".data)
    ("Hello ".data ++ f.ref_name ++
     ",\n\nThis is to notify you that ".data ++ f.full_name ++
     " has submitted an application for the ".data ++ f.position ++
     " role and listed you as a referrer.\nApplication ID: ".data ++ appId ++
     "\n\nBest,\n".data ++ cfg.fromName)
    f.ref_email none none none

/-- The sends the handler will attempt, in source order: applicant, HR,
then the referrer only when `referred and ref_email` (app.py lines
304-313). -/
def notifyPlan (cfg : Config) (f : Fields) (appId tsIso : Str) (render : ℚ → Str)
    (resumeBytes : Bytes) (resumeName : Str) : List BuiltEmail :=
  [applicantMsg cfg f appId, hrMsg cfg f appId tsIso render resumeBytes resumeName] ++
  (if f.referred = true ∧ ¬ f.ref_email = [] then [refMsg cfg f appId] else [])

/-- Attempt the sends in order; `ok` says whether a given send returns
normally.  Returns the attempted sends (the failing one included) and
whether all succeeded; a raise abandons the rest of the `try` block. -/
def attemptSends (ok : BuiltEmail → Bool) : List BuiltEmail → List BuiltEmail × Bool
  | [] => ([], true)
  | m :: rest =>
      if ok m then
        let r := attemptSends ok rest
        (m :: r.1, r.2)
      else ([m], false)

/-- Terminal outcomes of one submission (the handler's `st.stop` /
success paths). -/
inductive Outcome
  | rejected (errors : List Str)
  | resumeSaveFailed
  | recordSaveFailed
  | notifyFailed
  | completed
deriving DecidableEq

/-- Everything observable about one submission run: the outcome, the CSV
store afterwards, the sends attempted, and whether the resume file and
the record row were persisted. -/
structure RunResult where
  outcome : Outcome
  store : Option Str
  attempted : List BuiltEmail
  resumeSaved : Bool
  recordSaved : Bool
deriving DecidableEq

/-- The effect oracles: whether the resume write, the CSV append, and
each send raise an exception. -/
structure Oracles where
  resumeSaveOk : Bool
  persistOk : Bool
  sendOk : BuiltEmail → Bool

/-- The submission handler (app.py lines 167-330): validate, stop on
errors; save the resume, stop on failure; append the CSV row, stop on
failure; then attempt the three sends in order, stopping at the first
raise.  `t` is the integer Unix timestamp, `tsIso` the rendered UTC
timestamp string, `render` Python's `str` on floats. -/
def runSubmission (cfg : Config) (render : ℚ → Str) (t : Nat) (tsIso : Str)
    (s : Session) (store : Option Str) (o : Oracles) : RunResult :=
  let f := extract s
  let errors := validationErrors f
  if ¬ errors = [] then
    { outcome := .rejected errors, store := store, attempted := [],
      resumeSaved := false, recordSaved := false }
  else
    let appId := create_app_id t
    let resumeName := resume_name_of t f.full_name
    match f.resume with
    | none =>
        -- dead when `errors = []`; Python would raise inside the resume
        -- `try` (reading `.read()` on `None`) and stop the same way
        { outcome := .resumeSaveFailed, store := store, attempted := [],
          resumeSaved := false, recordSaved := false }
    | some rf =>
        if o.resumeSaveOk = false then
          { outcome := .resumeSaveFailed, store := store, attempted := [],
            resumeSaved := false, recordSaved := false }
        else
          let record := buildRecord f appId tsIso resumeName render
          if o.persistOk = false then
            { outcome := .recordSaveFailed, store := store, attempted := [],
              resumeSaved := true, recordSaved := false }
          else
            let store' := append_application_row store (recordRow record)
            let plan := notifyPlan cfg f appId tsIso render rf.content resumeName
            let res := attemptSends o.sendOk plan
            { outcome := if res.2 then .completed else .notifyFailed,
              store := some store', attempted := res.1,
              resumeSaved := true, recordSaved := true }

/-- The notification plan a session gives rise to (what `runSubmission`
will attempt when persistence succeeds). -/
def submissionPlan (cfg : Config) (render : ℚ → Str) (t : Nat) (tsIso : Str)
    (s : Session) : List BuiltEmail :=
  let f := extract s
  match f.resume with
  | none => []
  | some rf =>
      notifyPlan cfg f (create_app_id t) tsIso render rf.content (resume_name_of t f.full_name)

/-- The filename extension: the characters after the last dot (empty when
there is no dot). -/
def extOf (name : Str) : Str :=
  if name.contains '.' then (name.reverse.takeWhile (fun c => !(c = '.'))).reverse else []

/-- Spec-side definition for claim C7, following its words: the
attachment MIME type is inferred from the filename extension and any
unrecognized extension falls back to the generic binary type.  Only the
extension the code's context can produce (`pdf`) is in the table. -/
def specMimeC7 (name : Str) : Str × Str :=
  if extOf name = "pdf".data then ("application".data, "pdf".data)
  else ("application".data, "octet-stream".data)

/-- Spec-side validator for claim C4, following its words and check
order: full name; email; position; resume present with declared content
type exactly `application/pdf` (one combined check, reported with the
code's messages); consent; then the referral rules.  The claim's final
cover-letter-file extension rule is vacuous here because the form has no
cover-letter file input — only a free-text notes area exists. -/
def validateSpecC4 (f : Fields) : List Str :=
  gate (f.full_name = []) msgFullName ++
  gate (is_email f.email = false) msgEmail ++
  gate (f.position = []) msgPosition ++
  (match f.resume with
   | none => [msgResume]
   | some rf => gate (¬ rf.type = pdfType) msgResumeType) ++
  gate (f.consent = false) msgConsent ++
  (if f.referred then
    gate (f.ref_name = []) msgRefName ++
    gate (f.ref_emp_id = []) msgRefEmpId ++
    gate (is_email f.ref_email = false) msgRefEmail
   else [])

/-- `pat` matches at the head of the second list. -/
def leadMatch : Str → Str → Bool
  | [], _ => true
  | _ :: _, [] => false
  | p :: ps, c :: cs => p = c && leadMatch ps cs

/-- `pat` occurs contiguously somewhere in `s` (substring test). -/
def hasSub (pat : Str) : Str → Bool
  | [] => leadMatch pat []
  | c :: cs => leadMatch pat (c :: cs) || hasSub pat cs

/-! ## Helper lemmas -/

/-- Membership in a conditional singleton. -/
theorem mem_gate {c : Prop} [Decidable c] {m x : Str} :
    x ∈ gate c m ↔ c ∧ x = m := by
  unfold gate
  split_ifs with h
  · simp [h]
  · simp [h]

/-- Membership in a conditional block. -/
theorem mem_iteList {c : Prop} [Decidable c] {l : List Str} {x : Str} :
    x ∈ (if c then l else []) ↔ c ∧ x ∈ l := by
  split_ifs with h
  · simp [h]
  · simp [h]

/-- A conditional singleton is a sublist of the singleton. -/
theorem gate_sub {c : Prop} [Decidable c] {m : Str} : List.Sublist (gate c m) [m] := by
  unfold gate
  split_ifs
  · exact List.Sublist.refl _
  · exact List.nil_sublist _

/-- The fuel-based digit renderer agrees with `Nat.digits`. -/
theorem pyIntStrGo_eq : ∀ fuel n : Nat, n ≤ fuel →
    pyIntStrGo fuel n = ((Nat.digits 10 n).map Nat.digitChar).reverse := by
  intro fuel
  induction fuel with
  | zero =>
    intro n hn
    have : n = 0 := by omega
    subst this
    simp [pyIntStrGo]
  | succ fuel ih =>
    intro n hn
    cases n with
    | zero => simp [pyIntStrGo]
    | succ m =>
      rw [pyIntStrGo]
      have hd : Nat.digits 10 (m + 1) = (m + 1) % 10 :: Nat.digits 10 ((m + 1) / 10) :=
        Nat.digits_def' (by norm_num) (by omega)
      rw [hd]
      have hle : (m + 1) / 10 ≤ fuel := by
        have := Nat.div_lt_self (by omega : 0 < m + 1) (by norm_num : 1 < 10)
        omega
      rw [ih _ hle]
      simp

/-- `pyIntStr` rendered through `Nat.digits`. -/
theorem pyIntStr_eq (n : Nat) :
    pyIntStr n = if n = 0 then ['0'] else ((Nat.digits 10 n).map Nat.digitChar).reverse := by
  unfold pyIntStr
  split_ifs with h
  · rfl
  · exact pyIntStrGo_eq n n le_rfl

/-- Digit characters determine digits below the base ten. -/
theorem digitChar_inj_lt10 : ∀ a < 10, ∀ b < 10, Nat.digitChar a = Nat.digitChar b → a = b := by
  decide

/-- Digit characters of digits below ten are ASCII digits. -/
theorem digitChar_isDigit : ∀ a < 10, (Nat.digitChar a).isDigit = true := by
  decide

/-- Mapping `Nat.digitChar` over digit lists below ten is injective. -/
theorem map_digitChar_inj : ∀ {l₁ l₂ : List ℕ},
    (∀ d ∈ l₁, d < 10) → (∀ d ∈ l₂, d < 10) →
    l₁.map Nat.digitChar = l₂.map Nat.digitChar → l₁ = l₂ := by
  intro l₁
  induction l₁ with
  | nil =>
    intro l₂ _ _ h
    cases l₂ with
    | nil => rfl
    | cons b t => simp at h
  | cons a t ih =>
    intro l₂ h₁ h₂ h
    cases l₂ with
    | nil => simp at h
    | cons b t₂ =>
      simp only [List.map_cons, List.cons.injEq] at h
      have ha : a < 10 := h₁ a (by simp)
      have hb : b < 10 := h₂ b (by simp)
      have hab : a = b := digitChar_inj_lt10 a ha b hb h.1
      have ht : t = t₂ :=
        ih (fun d hd => h₁ d (by simp [hd])) (fun d hd => h₂ d (by simp [hd])) h.2
      rw [hab, ht]

/-- `pyIntStr` is injective: distinct integers render distinctly. -/
theorem pyIntStr_inj {m n : Nat} (h : pyIntStr m = pyIntStr n) : m = n := by
  rw [pyIntStr_eq, pyIntStr_eq] at h
  by_cases hm : m = 0 <;> by_cases hn : n = 0
  · rw [hm, hn]
  · exfalso
    rw [if_pos hm, if_neg hn] at h
    have h' : (Nat.digits 10 n).map Nat.digitChar = ['0'] := by
      have := congrArg List.reverse h
      simpa using this.symm
    have hd : Nat.digits 10 n = [0] := by
      apply map_digitChar_inj (fun d hd => Nat.digits_lt_base (by norm_num) hd)
        (by intro d hd; simp at hd; omega)
      simpa using h'
    have := Nat.ofDigits_digits 10 n
    rw [hd] at this
    simp [Nat.ofDigits] at this
    exact hn this.symm
  · exfalso
    rw [if_neg hm, if_pos hn] at h
    have h' : (Nat.digits 10 m).map Nat.digitChar = ['0'] := by
      have := congrArg List.reverse h
      simpa using this
    have hd : Nat.digits 10 m = [0] := by
      apply map_digitChar_inj (fun d hd => Nat.digits_lt_base (by norm_num) hd)
        (by intro d hd; simp at hd; omega)
      simpa using h'
    have := Nat.ofDigits_digits 10 m
    rw [hd] at this
    simp [Nat.ofDigits] at this
    exact hm this.symm
  · rw [if_neg hm, if_neg hn] at h
    have h' := List.reverse_injective h
    have hd := map_digitChar_inj
      (fun d hd => Nat.digits_lt_base (by norm_num) hd)
      (fun d hd => Nat.digits_lt_base (by norm_num) hd) h'
    have hm' := Nat.ofDigits_digits 10 m
    have hn' := Nat.ofDigits_digits 10 n
    rw [hd] at hm'
    exact hm'.symm.trans hn'

/-- Every character of `pyIntStr` is an ASCII digit. -/
theorem pyIntStr_digits {n : Nat} : ∀ c ∈ pyIntStr n, c.isDigit = true := by
  intro c hc
  rw [pyIntStr_eq] at hc
  split_ifs at hc with h
  · simp at hc
    rw [hc]
    decide
  · simp only [List.mem_reverse, List.mem_map] at hc
    obtain ⟨d, hd, rfl⟩ := hc
    exact digitChar_isDigit d (Nat.digits_lt_base (by norm_num) hd)

/-- `create_app_id` is injective over the integer timestamp. -/
theorem create_app_id_inj {t₁ t₂ : Nat}
    (h : create_app_id t₁ = create_app_id t₂) : t₁ = t₂ := by
  unfold create_app_id at h
  exact pyIntStr_inj (List.append_cancel_left h)

/-- C9: the identifier generator returns the fixed prefix `APP-`
concatenated with the decimal integer Unix timestamp at call time; calls
whose integer timestamps differ (in particular calls more than one second
apart) return distinct identifiers, and calls within the same integer
second return the identical identifier. -/
theorem c9_app_id_format_and_uniqueness :
    ∀ t₁ t₂ : Nat,
      create_app_id t₁ = "APP-".data ++ pyIntStr t₁ ∧
      (¬ t₁ = t₂ → ¬ create_app_id t₁ = create_app_id t₂) ∧
      (t₁ + 1 < t₂ → ¬ create_app_id t₁ = create_app_id t₂) ∧
      (t₁ = t₂ → create_app_id t₁ = create_app_id t₂) := by
  intro t₁ t₂
  refine ⟨rfl, ?_, ?_, ?_⟩
  · intro hne h
    exact hne (create_app_id_inj h)
  · intro hlt h
    have := create_app_id_inj h
    omega
  · intro h
    rw [h]

/-- Witness for C9 at timestamps 5 and 7. -/
theorem c9_app_id_format_and_uniqueness_witness :
    ¬ create_app_id 5 = create_app_id 7 :=
  (c9_app_id_format_and_uniqueness 5 7).2.1 (by decide)

/-- Every character the substitution scanner emits is in the kept class. -/
theorem subRunsGo_chars :
    ∀ (s : Str) (b : Bool), ∀ c ∈ subRunsGo b s, allowedChar c = true := by
  intro s
  induction s with
  | nil =>
    intro b c hc
    simp [subRunsGo] at hc
  | cons c t ih =>
    intro b x hx
    by_cases hA : allowedChar c
    · rw [subRunsGo, if_pos hA] at hx
      rcases List.mem_cons.mp hx with h | h
      · rw [h]; exact hA
      · exact ih false x h
    · rw [subRunsGo, if_neg hA] at hx
      cases b with
      | true =>
        simp only [if_pos rfl] at hx
        exact ih true x hx
      | false =>
        simp only [Bool.false_eq_true, if_false] at hx
        rcases List.mem_cons.mp hx with h | h
        · rw [h]; decide
        · exact ih true x h

/-- Every character `subDisallowedRuns` emits is in the kept class. -/
theorem subDisallowedRuns_chars :
    ∀ s : Str, ∀ c ∈ subDisallowedRuns s, allowedChar c = true := by
  intro s
  exact subRunsGo_chars s false

/-- Every character of the sanitized filename is in the kept class. -/
theorem sanitize_filename_chars :
    ∀ s : Str, ∀ c ∈ sanitize_filename s, allowedChar c = true := by
  intro s c hc
  exact subDisallowedRuns_chars (pyStrip s) c (List.mem_of_mem_take hc)

/-- Every character of a generated application id is an uppercase letter,
a hyphen, or a digit — in particular in the kept filename class. -/
theorem create_app_id_chars :
    ∀ t : Nat, ∀ c ∈ create_app_id t, allowedChar c = true := by
  intro t c hc
  unfold create_app_id at hc
  rcases List.mem_append.mp hc with h | h
  · fin_cases h <;> decide
  · have := pyIntStr_digits c h
    unfold allowedChar
    rw [this]
    simp

/-- C10: `sanitize_filename` returns at most 80 characters, all of them
ASCII letters, digits, underscore, dot or hyphen; consequently the saved
resume filename `<app_id>_<sanitized_name>.pdf` never contains a path
separator (forward or backward slash), so the resume file is created
directly inside the configured save directory. -/
theorem c10_sanitize_filename_safety :
    ∀ s : Str,
      (sanitize_filename s).length ≤ 80 ∧
      (∀ c ∈ sanitize_filename s, allowedChar c = true) ∧
      (∀ t name, ¬ '/' ∈ resume_name_of t name ∧ ¬ Char.ofNat 92 ∈ resume_name_of t name) := by
  intro s
  refine ⟨?_, sanitize_filename_chars s, ?_⟩
  · unfold sanitize_filename
    exact List.length_take_le 80 _
  · intro t name
    have hmem : ∀ c ∈ resume_name_of t name, allowedChar c = true := by
      intro c hc
      unfold resume_name_of at hc
      rcases List.mem_append.mp hc with h | h
      · rcases List.mem_append.mp h with h' | h'
        · exact create_app_id_chars t c h'
        · rcases List.mem_cons.mp h' with h'' | h''
          · rw [h'']; decide
          · exact sanitize_filename_chars _ c h''
      · fin_cases h <;> decide
    constructor
    · intro h
      exact absurd (hmem '/' h) (by decide)
    · intro h
      exact absurd (hmem (Char.ofNat 92) h) (by decide)

/-- Witness for C10 at a concrete name containing a slash: the slash is
replaced and the kept characters are in the allowed class. -/
theorem c10_sanitize_filename_safety_witness :
    allowedChar '_' = true :=
  (c10_sanitize_filename_safety "a/b".data).2.1 '_' (by decide)

/-- Membership in the resume content-type block. -/
theorem mem_resumeTypeErrs {r : Option UploadedFile} {x : Str} :
    x ∈ resumeTypeErrs r ↔ ∃ rf, r = some rf ∧ ¬ rf.type = pdfType ∧ x = msgResumeType := by
  cases r with
  | none => simp [resumeTypeErrs]
  | some rf => simp [resumeTypeErrs, mem_gate]

/-- The full-name message appears iff the full name is empty. -/
theorem mem_val_fullName {f : Fields} :
    msgFullName ∈ validationErrors f ↔ f.full_name = [] := by
  unfold validationErrors
  simp +decide only [List.mem_append, mem_gate, mem_iteList, mem_resumeTypeErrs]
  simp +decide

/-- The email message appears iff `is_email` rejects the email. -/
theorem mem_val_email {f : Fields} :
    msgEmail ∈ validationErrors f ↔ is_email f.email = false := by
  unfold validationErrors
  simp +decide only [List.mem_append, mem_gate, mem_iteList, mem_resumeTypeErrs]
  simp +decide

/-- The position message appears iff the position is empty. -/
theorem mem_val_position {f : Fields} :
    msgPosition ∈ validationErrors f ↔ f.position = [] := by
  unfold validationErrors
  simp +decide only [List.mem_append, mem_gate, mem_iteList, mem_resumeTypeErrs]
  simp +decide

/-- The years message appears iff the years value is missing. -/
theorem mem_val_years {f : Fields} :
    msgYears ∈ validationErrors f ↔ f.years_experience = none := by
  unfold validationErrors
  simp +decide only [List.mem_append, mem_gate, mem_iteList, mem_resumeTypeErrs]
  simp +decide

/-- The resume-presence message appears iff no resume was uploaded. -/
theorem mem_val_resume {f : Fields} :
    msgResume ∈ validationErrors f ↔ f.resume = none := by
  unfold validationErrors
  simp +decide only [List.mem_append, mem_gate, mem_iteList, mem_resumeTypeErrs]
  simp +decide

/-- The consent message appears iff consent was not given. -/
theorem mem_val_consent {f : Fields} :
    msgConsent ∈ validationErrors f ↔ f.consent = false := by
  unfold validationErrors
  simp +decide only [List.mem_append, mem_gate, mem_iteList, mem_resumeTypeErrs]
  simp +decide

/-- The referrer-name message appears iff referred with an empty
referrer name. -/
theorem mem_val_refName {f : Fields} :
    msgRefName ∈ validationErrors f ↔ f.referred = true ∧ f.ref_name = [] := by
  unfold validationErrors
  simp +decide only [List.mem_append, mem_gate, mem_iteList, mem_resumeTypeErrs]
  simp +decide

/-- The referrer-id message appears iff referred with an empty
employee id. -/
theorem mem_val_refEmpId {f : Fields} :
    msgRefEmpId ∈ validationErrors f ↔ f.referred = true ∧ f.ref_emp_id = [] := by
  unfold validationErrors
  simp +decide only [List.mem_append, mem_gate, mem_iteList, mem_resumeTypeErrs]
  simp +decide

/-- The referrer-email message appears iff referred with an invalid
referrer email. -/
theorem mem_val_refEmail {f : Fields} :
    msgRefEmail ∈ validationErrors f ↔ f.referred = true ∧ is_email f.ref_email = false := by
  unfold validationErrors
  simp +decide only [List.mem_append, mem_gate, mem_iteList, mem_resumeTypeErrs]
  simp +decide

/-- The resume-type message appears iff a resume is present whose
declared content type is not `application/pdf`. -/
theorem mem_val_resumeType {f : Fields} :
    msgResumeType ∈ validationErrors f ↔ ∃ rf, f.resume = some rf ∧ ¬ rf.type = pdfType := by
  unfold validationErrors
  simp +decide only [List.mem_append, mem_gate, mem_iteList, mem_resumeTypeErrs]
  simp +decide

/-- The error list is always a sublist of the ten possible messages in
check order: errors come out in the order the code checks the rules. -/
theorem validationErrors_sub (f : Fields) : List.Sublist (validationErrors f) allMsgs := by
  have hR : List.Sublist
      (if f.referred then
        gate (f.ref_name = []) msgRefName ++ gate (f.ref_emp_id = []) msgRefEmpId ++
        gate (is_email f.ref_email = false) msgRefEmail
       else []) ([msgRefName] ++ [msgRefEmpId] ++ [msgRefEmail]) := by
    split_ifs
    · exact List.Sublist.append (List.Sublist.append gate_sub gate_sub) gate_sub
    · exact List.nil_sublist _
  have hT : List.Sublist (resumeTypeErrs f.resume) [msgResumeType] := by
    cases f.resume
    · exact List.nil_sublist _
    · exact gate_sub
  have h := List.Sublist.append (List.Sublist.append
    (List.Sublist.append (List.Sublist.append (List.Sublist.append
      (List.Sublist.append (List.Sublist.append
        (gate_sub (c := f.full_name = []) (m := msgFullName))
        (gate_sub (c := is_email f.email = false) (m := msgEmail)))
        (gate_sub (c := f.position = []) (m := msgPosition)))
        (gate_sub (c := f.years_experience = none) (m := msgYears)))
        (gate_sub (c := f.resume = none) (m := msgResume)))
        (gate_sub (c := f.consent = false) (m := msgConsent)))
    hR) hT
  exact h

/-- C4 (amended): validation evaluates every rule independently and
returns one message per violated rule, in exactly the code's check
order — full name; email; position; years-of-experience present; resume
file present; consent; when referred: referrer name, referrer employee
id, referrer email; and finally, when a resume file is present, declared
content type exactly `application/pdf`.  (There is no cover-letter file
or extension check: the form has only a free-text notes area.)  The
order is expressed by the error list always being a sublist of the fixed
ordered message list, and independence by each message appearing exactly
when its rule is violated. -/
theorem c4_validation_rules_and_order :
    ∀ f : Fields,
      List.Sublist (validationErrors f) allMsgs ∧
      (msgFullName ∈ validationErrors f ↔ f.full_name = []) ∧
      (msgEmail ∈ validationErrors f ↔ is_email f.email = false) ∧
      (msgPosition ∈ validationErrors f ↔ f.position = []) ∧
      (msgYears ∈ validationErrors f ↔ f.years_experience = none) ∧
      (msgResume ∈ validationErrors f ↔ f.resume = none) ∧
      (msgConsent ∈ validationErrors f ↔ f.consent = false) ∧
      (msgRefName ∈ validationErrors f ↔ f.referred = true ∧ f.ref_name = []) ∧
      (msgRefEmpId ∈ validationErrors f ↔ f.referred = true ∧ f.ref_emp_id = []) ∧
      (msgRefEmail ∈ validationErrors f ↔ f.referred = true ∧ is_email f.ref_email = false) ∧
      (msgResumeType ∈ validationErrors f ↔ ∃ rf, f.resume = some rf ∧ ¬ rf.type = pdfType) :=
  fun f =>
    ⟨validationErrors_sub f, mem_val_fullName, mem_val_email, mem_val_position,
     mem_val_years, mem_val_resume, mem_val_consent, mem_val_refName,
     mem_val_refEmpId, mem_val_refEmail, mem_val_resumeType⟩

/-- A session that is valid except that the years-of-experience value is
missing. -/
def cexSessionYears : Session :=
  { full_name := some "Ada Lovelace".data
    email := some "ada@example.com".data
    phone := some "1".data
    position := some "Engineer".data
    years_experience := none
    expected_salary := none
    location := none
    linkedin := none
    cover_letter := none
    consent := some true
    referred_toggle := some false
    ref_name := none
    ref_emp_id := none
    ref_email := none
    resume_file := some ⟨[1, 2, 3], "application/pdf".data⟩ }

/-- A session with consent withheld and a resume whose declared content
type is not PDF, all other rules satisfied. -/
def cexSessionConsentType : Session :=
  { full_name := some "Ada Lovelace".data
    email := some "ada@example.com".data
    phone := some "1".data
    position := some "Engineer".data
    years_experience := some 5
    expected_salary := none
    location := none
    linkedin := none
    cover_letter := none
    consent := some false
    referred_toggle := some false
    ref_name := none
    ref_emp_id := none
    ref_email := none
    resume_file := some ⟨[1, 2, 3], "text/plain".data⟩ }

/-- Counterexample to C4 as stated.  The claim's rule list has no
years-of-experience rule, yet the code reports one (first conjuncts);
and the claim places the resume content-type check fourth, before
consent, while the code checks it last — on a submission violating both
consent and resume type, the code's order is the reverse of the
claimed order (remaining conjuncts, comparing against `validateSpecC4`,
the validator written from the claim's words). -/
theorem c4_counterexample :
    validationErrors (extract cexSessionYears) = [msgYears] ∧
    validateSpecC4 (extract cexSessionYears) = [] ∧
    validationErrors (extract cexSessionConsentType) = [msgConsent, msgResumeType] ∧
    validateSpecC4 (extract cexSessionConsentType) = [msgResumeType, msgConsent] ∧
    ¬ validationErrors (extract cexSessionConsentType) =
        validateSpecC4 (extract cexSessionConsentType) := by
  refine ⟨by decide, by decide, by decide, by decide, by decide⟩

/-- C2: whenever some required field is missing or invalid (any of the
code's validation rules is violated), the error list is non-empty, it
contains the specific message of every violated rule, and the run halts
at the rejection: nothing is persisted, no email is attempted, and the
store is untouched. -/
theorem c2_rejection_halts_pipeline :
    ∀ (cfg : Config) (render : ℚ → Str) (t : Nat) (tsIso : Str) (s : Session)
      (store : Option Str) (o : Oracles),
      ((extract s).full_name = [] ∨ is_email (extract s).email = false ∨
       (extract s).position = [] ∨ (extract s).years_experience = none ∨
       (extract s).resume = none ∨ (extract s).consent = false ∨
       ((extract s).referred = true ∧ ((extract s).ref_name = [] ∨
          (extract s).ref_emp_id = [] ∨ is_email (extract s).ref_email = false)) ∨
       (∃ rf, (extract s).resume = some rf ∧ ¬ rf.type = pdfType)) →
      ¬ validationErrors (extract s) = [] ∧
      ((extract s).full_name = [] → msgFullName ∈ validationErrors (extract s)) ∧
      (is_email (extract s).email = false → msgEmail ∈ validationErrors (extract s)) ∧
      ((extract s).position = [] → msgPosition ∈ validationErrors (extract s)) ∧
      ((extract s).years_experience = none → msgYears ∈ validationErrors (extract s)) ∧
      ((extract s).resume = none → msgResume ∈ validationErrors (extract s)) ∧
      ((extract s).consent = false → msgConsent ∈ validationErrors (extract s)) ∧
      ((extract s).referred = true ∧ (extract s).ref_name = [] →
        msgRefName ∈ validationErrors (extract s)) ∧
      ((extract s).referred = true ∧ (extract s).ref_emp_id = [] →
        msgRefEmpId ∈ validationErrors (extract s)) ∧
      ((extract s).referred = true ∧ is_email (extract s).ref_email = false →
        msgRefEmail ∈ validationErrors (extract s)) ∧
      ((∃ rf, (extract s).resume = some rf ∧ ¬ rf.type = pdfType) →
        msgResumeType ∈ validationErrors (extract s)) ∧
      runSubmission cfg render t tsIso s store o =
        { outcome := .rejected (validationErrors (extract s)), store := store,
          attempted := [], resumeSaved := false, recordSaved := false } := by
  intro cfg render t tsIso s store o hviol
  have hne : ¬ validationErrors (extract s) = [] := by
    rcases hviol with h | h | h | h | h | h | ⟨hr, h | h | h⟩ | ⟨rf, hrf, hty⟩
    · exact List.ne_nil_of_mem (mem_val_fullName.mpr h)
    · exact List.ne_nil_of_mem (mem_val_email.mpr h)
    · exact List.ne_nil_of_mem (mem_val_position.mpr h)
    · exact List.ne_nil_of_mem (mem_val_years.mpr h)
    · exact List.ne_nil_of_mem (mem_val_resume.mpr h)
    · exact List.ne_nil_of_mem (mem_val_consent.mpr h)
    · exact List.ne_nil_of_mem (mem_val_refName.mpr ⟨hr, h⟩)
    · exact List.ne_nil_of_mem (mem_val_refEmpId.mpr ⟨hr, h⟩)
    · exact List.ne_nil_of_mem (mem_val_refEmail.mpr ⟨hr, h⟩)
    · exact List.ne_nil_of_mem (mem_val_resumeType.mpr ⟨rf, hrf, hty⟩)
  refine ⟨hne, fun h => mem_val_fullName.mpr h, fun h => mem_val_email.mpr h,
    fun h => mem_val_position.mpr h, fun h => mem_val_years.mpr h,
    fun h => mem_val_resume.mpr h, fun h => mem_val_consent.mpr h,
    fun h => mem_val_refName.mpr h, fun h => mem_val_refEmpId.mpr h,
    fun h => mem_val_refEmail.mpr h, fun h => mem_val_resumeType.mpr h, ?_⟩
  unfold runSubmission
  simp only [hne, not_false_eq_true, if_true]

/-- Witness for C2 on the missing-years session: the run rejects with
the years message, touching nothing. -/
theorem c2_rejection_halts_pipeline_witness :
    runSubmission ⟨"hr@example.com".data, "Recruiting Team".data⟩ (fun _ => "5.0".data)
        100 "2024-01-01T00:00:00Z".data cexSessionYears none
        ⟨true, true, fun _ => true⟩ =
      { outcome := .rejected (validationErrors (extract cexSessionYears)), store := none,
        attempted := [], resumeSaved := false, recordSaved := false } :=
  (c2_rejection_halts_pipeline ⟨"hr@example.com".data, "Recruiting Team".data⟩
    (fun _ => "5.0".data) 100 "2024-01-01T00:00:00Z".data cexSessionYears none
    ⟨true, true, fun _ => true⟩
    (Or.inr (Or.inr (Or.inr (Or.inl rfl))))).2.2.2.2.2.2.2.2.2.2.2

/-- C5: in the built record, whenever the referred flag is off the three
referral sub-fields are blanked to the empty string regardless of what
the raw session holds, and every unfilled optional field (phone,
expected salary, location, linkedin, notes) defaults to the empty
string. -/
theorem c5_referral_blanking_and_defaults :
    ∀ (s : Session) (appId tsIso resumeName : Str) (render : ℚ → Str),
      ((extract s).referred = false →
        (buildRecord (extract s) appId tsIso resumeName render).ref_name = [] ∧
        (buildRecord (extract s) appId tsIso resumeName render).ref_emp_id = [] ∧
        (buildRecord (extract s) appId tsIso resumeName render).ref_email = [] ∧
        (buildRecord (extract s) appId tsIso resumeName render).referred = "No".data) ∧
      (s.phone = none → (buildRecord (extract s) appId tsIso resumeName render).phone = []) ∧
      (s.expected_salary = none →
        (buildRecord (extract s) appId tsIso resumeName render).expected_salary = []) ∧
      (s.location = none → (buildRecord (extract s) appId tsIso resumeName render).location = []) ∧
      (s.linkedin = none → (buildRecord (extract s) appId tsIso resumeName render).linkedin = []) ∧
      (s.cover_letter = none →
        (buildRecord (extract s) appId tsIso resumeName render).cover_letter = []) := by
  intro s appId tsIso resumeName render
  refine ⟨?_, ?_, ?_, ?_, ?_, ?_⟩
  · intro h
    unfold buildRecord
    unfold extract at h ⊢
    simp only at h ⊢
    rw [h]
    simp [h]
  · intro h
    unfold buildRecord extract
    simp [h, getStripped, pyStrip]
  · intro h
    unfold buildRecord extract
    simp [h, getStripped, pyStrip]
  · intro h
    unfold buildRecord extract
    simp [h, getStripped, pyStrip]
  · intro h
    unfold buildRecord extract
    simp [h, getStripped, pyStrip]
  · intro h
    unfold buildRecord extract
    simp [h, getStripped, pyStrip]

/-- A session with the referral sub-fields populated but the toggle off,
and no optional fields filled. -/
def sessionToggledOff : Session :=
  { full_name := some "Ada Lovelace".data
    email := some "ada@example.com".data
    phone := none
    position := some "Engineer".data
    years_experience := some 5
    expected_salary := none
    location := none
    linkedin := none
    cover_letter := none
    consent := some true
    referred_toggle := some false
    ref_name := some "Grace Hopper".data
    ref_emp_id := some "E42".data
    ref_email := some "grace@example.com".data
    resume_file := some ⟨[1, 2, 3], "application/pdf".data⟩ }

/-- Witness for C5: with the toggle off, the typed referrer name is
blanked in the built record. -/
theorem c5_referral_blanking_and_defaults_witness :
    (buildRecord (extract sessionToggledOff) "APP-1".data "ts".data "r.pdf".data
      (fun _ => "5".data)).ref_name = [] :=
  ((c5_referral_blanking_and_defaults sessionToggledOff "APP-1".data "ts".data "r.pdf".data
    (fun _ => "5".data)).1 (by decide)).1

/-- Counterexample to C7 as stated: for an attachment named `data.zzz`
(an unrecognized extension) the built message declares
`application/pdf`, not the generic binary type the claim requires
(compared against `specMimeC7`, the inference written from the claim's
words). -/
theorem c7_counterexample :
    (send_email_message "s".data "b".data "to@x.y".data (some [1])
        (some "data.zzz".data) none).attach =
      some ([1], "application".data, "pdf".data, "data.zzz".data) ∧
    specMimeC7 "data.zzz".data = ("application".data, "octet-stream".data) ∧
    ¬ attachMimeOf "data.zzz".data = specMimeC7 "data.zzz".data := by
  refine ⟨by decide, by decide, by decide⟩

/-- C7 (amended): the declared MIME type of every attachment is the
constant `application/pdf` — the code assumes the attachment is the PDF
resume and never consults the filename extension. -/
theorem c7_attachment_mime_constant :
    ∀ (subject body toAddr : Str) (bytes : Bytes) (nm : Str) (rt : Option Str),
      attachMimeOf nm = ("application".data, "pdf".data) ∧
      (¬ bytes = [] → ¬ nm = [] →
        (send_email_message subject body toAddr (some bytes) (some nm) rt).attach =
          some (bytes, "application".data, "pdf".data, nm)) := by
  intro subject body toAddr bytes nm rt
  refine ⟨rfl, ?_⟩
  intro hb hn
  unfold send_email_message
  simp only
  rw [if_neg (by simp [hb, hn])]
  rfl

/-- Witness for C7 at a concrete non-PDF filename. -/
theorem c7_attachment_mime_constant_witness :
    (send_email_message "s".data "b".data "to@x.y".data (some [1])
        (some "data.zzz".data) none).attach =
      some ([1], "application".data, "pdf".data, "data.zzz".data) :=
  (c7_attachment_mime_constant "s".data "b".data "to@x.y".data [1] "data.zzz".data none).2
    (by decide) (by decide)

/-- The head surviving a `dropWhile` fails the predicate. -/
theorem dropWhile_cons_prop {p : Char → Bool} {l : Str} {x : Char} {xs : Str}
    (h : l.dropWhile p = x :: xs) : p x = false := by
  induction l with
  | nil => simp at h
  | cons c t ih =>
    rw [List.dropWhile_cons] at h
    by_cases hc : p c = true
    · rw [if_pos hc] at h
      exact ih h
    · rw [if_neg hc] at h
      cases h
      simpa using hc

/-- `takeWhile`/`dropWhile` split a list at the first predicate
failure. -/
theorem takeWhile_all {p : Char → Bool} {a : Str} {y : Char} (r : Str)
    (ha : ∀ x ∈ a, p x = true) (hy : p y = false) :
    (a ++ y :: r).takeWhile p = a ∧ (a ++ y :: r).dropWhile p = y :: r := by
  induction a with
  | nil => simp [List.takeWhile_cons, List.dropWhile_cons, hy]
  | cons a0 a' ih =>
    have h0 : p a0 = true := ha a0 (by simp)
    have ih' := ih (fun x hx => ha x (by simp [hx]))
    simp [List.takeWhile_cons, List.dropWhile_cons, h0, ih'.1, ih'.2]

/-- `dotNotLast` finds exactly the dots having a successor. -/
theorem dotNotLast_iff {l : Str} :
    dotNotLast l = true ↔ ∃ p q, l = p ++ '.' :: q ∧ ¬ q = [] := by
  induction l with
  | nil =>
    constructor
    · intro h
      exact absurd h (by decide)
    · rintro ⟨p, q, hpq, hq⟩
      exact absurd hpq.symm (by simp)
  | cons c t ih =>
    cases t with
    | nil =>
      constructor
      · intro h
        have h0 : dotNotLast [c] = false := rfl
        rw [h0] at h
        exact absurd h (by simp)
      · rintro ⟨p, q, hpq, hq⟩
        have hlen : ([c].length : Nat) = (p ++ '.' :: q).length := congrArg List.length hpq
        simp [List.length_append] at hlen
        cases q with
        | nil => exact absurd rfl hq
        | cons _ _ => simp at hlen; omega
    | cons c2 t2 =>
      have heq : dotNotLast (c :: c2 :: t2) = (decide (c = '.') || dotNotLast (c2 :: t2)) := rfl
      rw [heq]
      constructor
      · intro h
        have h' : c = '.' ∨ dotNotLast (c2 :: t2) = true := by simpa using h
        rcases h' with h' | h'
        · exact ⟨[], c2 :: t2, by rw [h']; rfl, by simp⟩
        · obtain ⟨p, q, hpq, hq⟩ := ih.mp h'
          exact ⟨c :: p, q, by rw [List.cons_append, ← hpq], hq⟩
      · rintro ⟨p, q, hpq, hq⟩
        cases p with
        | nil =>
          simp only [List.nil_append, List.cons.injEq] at hpq
          simp [hpq.1]
        | cons p0 p' =>
          simp only [List.cons_append, List.cons.injEq] at hpq
          have := ih.mpr ⟨p', q, hpq.2, hq⟩
          simp [this]

/-- Full correctness of the `EMAIL_REGEX` matcher: it accepts exactly
the strings that decompose as `local@domain.tld` with each of the three
segments nonempty and all their characters non-whitespace-non-`@`. -/
theorem emailRegexCore_iff {cs : Str} :
    emailRegexCore cs = true ↔
      ∃ a b c : Str, cs = a ++ '@' :: (b ++ '.' :: c) ∧
        ¬ a = [] ∧ ¬ b = [] ∧ ¬ c = [] ∧
        (∀ x ∈ a, okC x = true) ∧ (∀ x ∈ b, okC x = true) ∧ (∀ x ∈ c, okC x = true) := by
  constructor
  · intro h
    unfold emailRegexCore at h
    set A := cs.takeWhile (fun c => !(c = '@')) with hA
    rcases hd : cs.dropWhile (fun c => !(c = '@')) with _ | ⟨x, rest⟩
    · rw [hd] at h
      simp at h
    · rw [hd] at h
      have hx : x = '@' := by simpa using dropWhile_cons_prop hd
      subst hx
      rcases rest with _ | ⟨r0, t⟩
      · simp at h
      · simp only [Bool.and_eq_true] at h
        obtain ⟨⟨⟨hA1, hA2⟩, hR⟩, hIn⟩ := h
        have hIn' : dotNotLast t = true := hIn
        obtain ⟨p, q, hpq, hq⟩ := dotNotLast_iff.mp hIn'
        have hcs : cs = A ++ '@' :: r0 :: t := by
          conv_lhs => rw [← List.takeWhile_append_dropWhile (p := fun c => !(c = '@')) (l := cs)]
          rw [hd, ← hA]
        refine ⟨A, r0 :: p, q, ?_, ?_, by simp, hq, ?_, ?_, ?_⟩
        · rw [hcs, hpq]
          simp
        · intro he
          rw [he] at hA1
          simp at hA1
        · intro y hy
          exact List.all_eq_true.mp hA2 y hy
        · intro y hy
          apply List.all_eq_true.mp hR y
          rcases List.mem_cons.mp hy with h' | h'
          · rw [h']
            simp
          · apply List.mem_cons_of_mem
            rw [hpq]
            exact List.mem_append_left _ h'
        · intro y hy
          apply List.all_eq_true.mp hR y
          apply List.mem_cons_of_mem
          rw [hpq]
          exact List.mem_append_right _ (List.mem_cons_of_mem _ hy)
  · rintro ⟨a, b, c, hcs, ha, hb, hc, hA, hB, hC⟩
    subst hcs
    obtain ⟨b0, b', rfl⟩ : ∃ b0 b', b = b0 :: b' := by
      cases b with
      | nil => exact absurd rfl hb
      | cons b0 b' => exact ⟨b0, b', rfl⟩
    have hpa : ∀ x ∈ a, (fun ch => !(ch = '@')) x = true := by
      intro x hx
      have := hA x hx
      unfold okC at this
      simp only [Bool.and_eq_true] at this
      simpa using this.2
    have hsplit := takeWhile_all (p := fun ch => !(ch = '@')) (y := '@')
      (b0 :: (b' ++ '.' :: c)) hpa (by simp)
    unfold emailRegexCore
    simp only [List.cons_append] at hsplit ⊢
    rw [hsplit.2]
    have h1 : a.isEmpty = false := by
      cases a with
      | nil => exact absurd rfl ha
      | cons _ _ => rfl
    have h2 : a.all okC = true := List.all_eq_true.mpr hA
    have h3 : (b0 :: (b' ++ '.' :: c)).all okC = true := by
      apply List.all_eq_true.mpr
      intro y hy
      rcases List.mem_cons.mp hy with h' | h'
      · rw [h']
        exact hB b0 (by simp)
      · rcases List.mem_append.mp h' with h'' | h''
        · exact hB y (by simp [h''])
        · rcases List.mem_cons.mp h'' with h3 | h3
          · rw [h3]
            decide
          · exact hC y h3
    have h4 : dotNotLast (b' ++ '.' :: c) = true := dotNotLast_iff.mpr ⟨b', c, rfl, hc⟩
    simp [hsplit.1, h1, h2, h3, h4]

/-- A stripped string never ends in whitespace. -/
theorem pyStrip_getLast_ws {s : Str} {c : Char} (h : (pyStrip s).getLast? = some c) :
    isPySpace c = false := by
  unfold pyStrip at h
  rw [List.getLast?_reverse] at h
  rcases hd : List.dropWhile isPySpace (s.dropWhile isPySpace).reverse with _ | ⟨y, ys⟩
  · rw [hd] at h
    simp at h
  · rw [hd] at h
    simp at h
    rw [← h]
    exact dropWhile_cons_prop hd

/-- On the stripped input `is_email` reduces to the core matcher: the
trailing-newline clause of Python's `$` cannot fire because stripping
removed any trailing newline. -/
theorem is_email_eq_core (s : Str) : is_email s = emailRegexCore (pyStrip s) := by
  unfold is_email emailRegexMatch
  rcases hl : (pyStrip s).getLast? with _ | c
  · simp [hl]
  · have hws := pyStrip_getLast_ws hl
    have hne : ¬ c = '\n' := by
      intro hc
      rw [hc] at hws
      exact absurd hws (by decide)
    simp [hl, hne]

/-- C3 (amended): after stripping leading and trailing whitespace, the
email check accepts exactly the strings that decompose as
`local@domain.tld` with all three segments nonempty and every character
non-whitespace-non-`@`.  In particular it rejects inputs missing `@`,
missing a dot after the `@`, or containing interior whitespace; but a
string whose only whitespace is at the ends is accepted once stripped,
and the final segment must also avoid `@` (not merely whitespace). -/
theorem c3_email_wellformedness :
    ∀ s : Str,
      is_email s = true ↔
        ∃ a b c : Str, pyStrip s = a ++ '@' :: (b ++ '.' :: c) ∧
          ¬ a = [] ∧ ¬ b = [] ∧ ¬ c = [] ∧
          (∀ x ∈ a, okC x = true) ∧ (∀ x ∈ b, okC x = true) ∧ (∀ x ∈ c, okC x = true) := by
  intro s
  rw [is_email_eq_core]
  exact emailRegexCore_iff

/-- Counterexample to C3 as stated: `" a@b.c "` contains whitespace yet
is accepted (the code strips before matching), and `"a@b.c@d"` matches
the claim's accepted shape — the part after the domain dot is
non-whitespace — yet is rejected (the regex also excludes `@` there). -/
theorem c3_counterexample :
    (" a@b.c ".data.any isPySpace = true ∧ is_email " a@b.c ".data = true) ∧
    ((∃ a b c : Str, "a@b.c@d".data = a ++ '@' :: (b ++ '.' :: c) ∧
        ¬ a = [] ∧ ¬ b = [] ∧ ¬ c = [] ∧
        (∀ x ∈ a, okC x = true) ∧ (∀ x ∈ b, okC x = true) ∧
        (∀ x ∈ c, isPySpace x = false)) ∧
      is_email "a@b.c@d".data = false) := by
  refine ⟨⟨by decide, by decide⟩, ⟨⟨['a'], ['b'], ['c', '@', 'd'], by decide, by decide,
    by decide, by decide, by decide, by decide, by decide⟩, by decide⟩⟩

/-- Witness for C3: a plain well-formed address is accepted via the
decomposition. -/
theorem c3_email_wellformedness_witness :
    is_email "ada@example.com".data = true :=
  (c3_email_wellformedness "ada@example.com".data).mpr
    ⟨"ada".data, "example".data, "com".data, by decide, by decide, by decide,
     by decide, by decide, by decide, by decide⟩

/-- A successful validation implies a resume file is present. -/
theorem validation_nil_resume {f : Fields} (h : validationErrors f = []) :
    ∃ rf, f.resume = some rf := by
  rcases hr : f.resume with _ | rf
  · exfalso
    have hm := mem_val_resume.mpr hr
    rw [h] at hm
    simp at hm
  · exact ⟨rf, rfl⟩

/-- The applicant confirmation and HR notification are always distinct
messages (their subjects start with different characters). -/
theorem applicantMsg_ne_hrMsg {cfg : Config} {f : Fields} {appId tsIso : Str}
    {render : ℚ → Str} {bs : Bytes} {rn : Str} :
    ¬ applicantMsg cfg f appId = hrMsg cfg f appId tsIso render bs rn := by
  intro h
  have ha : (applicantMsg cfg f appId).subject.head? = some 'A' := rfl
  have hh : (hrMsg cfg f appId tsIso render bs rn).subject.head? = some '[' := rfl
  rw [h, hh] at ha
  exact absurd ha (by decide)

/-- The applicant confirmation and referrer notice are always distinct. -/
theorem applicantMsg_ne_refMsg {cfg : Config} {f : Fields} {appId : Str} :
    ¬ applicantMsg cfg f appId = refMsg cfg f appId := by
  intro h
  have ha : (applicantMsg cfg f appId).subject.head? = some 'A' := rfl
  have hr : (refMsg cfg f appId).subject.head? = some 'Y' := rfl
  rw [h, hr] at ha
  exact absurd ha (by decide)

/-- The HR notification and referrer notice are always distinct. -/
theorem hrMsg_ne_refMsg {cfg : Config} {f : Fields} {appId tsIso : Str}
    {render : ℚ → Str} {bs : Bytes} {rn : Str} :
    ¬ hrMsg cfg f appId tsIso render bs rn = refMsg cfg f appId := by
  intro h
  have hh : (hrMsg cfg f appId tsIso render bs rn).subject.head? = some '[' := rfl
  have hr : (refMsg cfg f appId).subject.head? = some 'Y' := rfl
  rw [h, hr] at hh
  exact absurd hh (by decide)

/-- The planned sends never contain a duplicate message. -/
theorem notifyPlan_nodup {cfg : Config} {f : Fields} {appId tsIso : Str}
    {render : ℚ → Str} {bs : Bytes} {rn : Str} :
    (notifyPlan cfg f appId tsIso render bs rn).Nodup := by
  unfold notifyPlan
  split_ifs with h
  · simp only [List.cons_append, List.nil_append]
    refine List.nodup_cons.mpr ⟨?_, List.nodup_cons.mpr ⟨?_, by simp⟩⟩
    · intro hm
      rcases List.mem_cons.mp hm with h' | h'
      · exact applicantMsg_ne_hrMsg h'
      · rcases List.mem_cons.mp h' with h'' | h''
        · exact applicantMsg_ne_refMsg h''
        · simp at h''
    · intro hm
      rcases List.mem_cons.mp hm with h' | h'
      · exact hrMsg_ne_refMsg h'
      · simp at h'
  · simp only [List.append_nil]
    refine List.nodup_cons.mpr ⟨?_, by simp⟩
    intro hm
    rcases List.mem_cons.mp hm with h' | h'
    · exact applicantMsg_ne_hrMsg h'
    · simp at h'

/-- The attempted sends are an in-order prefix of the plan. -/
theorem attemptSends_isPre (ok : BuiltEmail → Bool) :
    ∀ plan : List BuiltEmail, (attemptSends ok plan).1 <+: plan := by
  intro plan
  induction plan with
  | nil => simp [attemptSends]
  | cons m rest ih =>
    rw [attemptSends]
    by_cases h : ok m = true
    · rw [if_pos h]
      obtain ⟨tl, htl⟩ := ih
      exact ⟨tl, by rw [List.cons_append, htl]⟩
    · rw [if_neg h]
      exact ⟨rest, rfl⟩

/-- Reduction of the handler when persistence fails after a clean
validation and resume save. -/
theorem runSubmission_persistFail {cfg : Config} {render : ℚ → Str} {t : Nat}
    {tsIso : Str} {s : Session} {store : Option Str} {o : Oracles}
    (hval : validationErrors (extract s) = []) {rf : UploadedFile}
    (hrf : (extract s).resume = some rf)
    (hres : o.resumeSaveOk = true) (hper : o.persistOk = false) :
    runSubmission cfg render t tsIso s store o =
      { outcome := .recordSaveFailed, store := store, attempted := [],
        resumeSaved := true, recordSaved := false } := by
  unfold runSubmission
  simp [hval, hrf, hres, hper]

/-- Reduction of the handler on the fully-successful persistence path. -/
theorem runSubmission_ok {cfg : Config} {render : ℚ → Str} {t : Nat}
    {tsIso : Str} {s : Session} {store : Option Str} {o : Oracles}
    (hval : validationErrors (extract s) = []) {rf : UploadedFile}
    (hrf : (extract s).resume = some rf)
    (hres : o.resumeSaveOk = true) (hper : o.persistOk = true) :
    runSubmission cfg render t tsIso s store o =
      { outcome := if (attemptSends o.sendOk (notifyPlan cfg (extract s) (create_app_id t)
            tsIso render rf.content (resume_name_of t (extract s).full_name))).2 then
            .completed else .notifyFailed,
        store := some (append_application_row store (recordRow (buildRecord (extract s)
            (create_app_id t) tsIso (resume_name_of t (extract s).full_name) render))),
        attempted := (attemptSends o.sendOk (notifyPlan cfg (extract s) (create_app_id t)
            tsIso render rf.content (resume_name_of t (extract s).full_name))).1,
        resumeSaved := true, recordSaved := true } := by
  unfold runSubmission
  simp [hval, hrf, hres, hper]

/-- The plan of a session with a resume file. -/
theorem submissionPlan_eq {cfg : Config} {render : ℚ → Str} {t : Nat} {tsIso : Str}
    {s : Session} {rf : UploadedFile} (hrf : (extract s).resume = some rf) :
    submissionPlan cfg render t tsIso s =
      notifyPlan cfg (extract s) (create_app_id t) tsIso render rf.content
        (resume_name_of t (extract s).full_name) := by
  unfold submissionPlan
  simp [hrf]

/-- When the first send succeeds and the second raises, exactly the
first two sends are attempted and the block fails. -/
theorem attemptSends_two {ok : BuiltEmail → Bool} {a h : BuiltEmail}
    {rest : List BuiltEmail} (h1 : ok a = true) (h2 : ok h = false) :
    attemptSends ok (a :: h :: rest) = ([a, h], false) := by
  rw [attemptSends, if_pos h1, attemptSends, if_neg (by simp [h2])]

/-- C1: after a clean validation, (i) a raise in the record append halts
the submission with no send attempted and the store untouched; (ii) the
notification plan is fixed: applicant, then HR, then the referrer notice
exactly when referred with a referrer email; (iii) whatever sends raise,
the attempted sends are an in-order prefix of that plan with no message
attempted twice, and the appended record row stays in the store; and
(iv) if the first send returns and the second raises, exactly the first
two are attempted — the referrer notice never is. -/
theorem c1_pipeline_error_propagation :
    ∀ (cfg : Config) (render : ℚ → Str) (t : Nat) (tsIso : Str) (s : Session)
      (store : Option Str) (sendOk : BuiltEmail → Bool) (rf : UploadedFile),
      validationErrors (extract s) = [] →
      (extract s).resume = some rf →
      (runSubmission cfg render t tsIso s store ⟨true, false, sendOk⟩ =
        { outcome := .recordSaveFailed, store := store, attempted := [],
          resumeSaved := true, recordSaved := false }) ∧
      (submissionPlan cfg render t tsIso s =
        [applicantMsg cfg (extract s) (create_app_id t),
         hrMsg cfg (extract s) (create_app_id t) tsIso render rf.content
           (resume_name_of t (extract s).full_name)] ++
        (if (extract s).referred = true ∧ ¬ (extract s).ref_email = [] then
          [refMsg cfg (extract s) (create_app_id t)] else [])) ∧
      ((runSubmission cfg render t tsIso s store ⟨true, true, sendOk⟩).attempted <+:
        submissionPlan cfg render t tsIso s) ∧
      (∀ m, (runSubmission cfg render t tsIso s store ⟨true, true, sendOk⟩).attempted.count m ≤ 1) ∧
      ((runSubmission cfg render t tsIso s store ⟨true, true, sendOk⟩).store =
        some (append_application_row store (recordRow (buildRecord (extract s)
          (create_app_id t) tsIso (resume_name_of t (extract s).full_name) render)))) ∧
      ((runSubmission cfg render t tsIso s store ⟨true, true, sendOk⟩).recordSaved = true) ∧
      (sendOk (applicantMsg cfg (extract s) (create_app_id t)) = true →
       sendOk (hrMsg cfg (extract s) (create_app_id t) tsIso render rf.content
         (resume_name_of t (extract s).full_name)) = false →
       (runSubmission cfg render t tsIso s store ⟨true, true, sendOk⟩).attempted =
         [applicantMsg cfg (extract s) (create_app_id t),
          hrMsg cfg (extract s) (create_app_id t) tsIso render rf.content
            (resume_name_of t (extract s).full_name)] ∧
       ¬ refMsg cfg (extract s) (create_app_id t) ∈
         (runSubmission cfg render t tsIso s store ⟨true, true, sendOk⟩).attempted) := by
  intro cfg render t tsIso s store sendOk rf hval hrf
  refine ⟨?_, ?_, ?_, ?_, ?_, ?_, ?_⟩
  · exact runSubmission_persistFail hval hrf rfl rfl
  · rw [submissionPlan_eq hrf]
    rfl
  · rw [runSubmission_ok hval hrf rfl rfl, submissionPlan_eq hrf]
    exact attemptSends_isPre sendOk _
  · intro m
    rw [runSubmission_ok hval hrf rfl rfl]
    have hnd : ((attemptSends sendOk (notifyPlan cfg (extract s) (create_app_id t) tsIso
        render rf.content (resume_name_of t (extract s).full_name))).1).Nodup :=
      ((attemptSends_isPre sendOk _).sublist).nodup notifyPlan_nodup
    exact List.nodup_iff_count_le_one.mp hnd m
  · rw [runSubmission_ok hval hrf rfl rfl]
  · rw [runSubmission_ok hval hrf rfl rfl]
  · intro h1 h2
    have key : (runSubmission cfg render t tsIso s store ⟨true, true, sendOk⟩).attempted =
        [applicantMsg cfg (extract s) (create_app_id t),
         hrMsg cfg (extract s) (create_app_id t) tsIso render rf.content
           (resume_name_of t (extract s).full_name)] := by
      rw [runSubmission_ok hval hrf rfl rfl]
      show (attemptSends sendOk (notifyPlan cfg (extract s) (create_app_id t) tsIso
        render rf.content (resume_name_of t (extract s).full_name))).1 = _
      unfold notifyPlan
      simp only [List.cons_append, List.nil_append]
      rw [attemptSends_two h1 h2]
    refine ⟨key, ?_⟩
    rw [key]
    intro hm
    rcases List.mem_cons.mp hm with h' | h'
    · exact applicantMsg_ne_refMsg h'.symm
    · rcases List.mem_cons.mp h' with h'' | h''
      · exact hrMsg_ne_refMsg h''.symm
      · simp at h''

/-- A fully valid session, referred, with referrer details supplied. -/
def validSession : Session :=
  { full_name := some "Ada Lovelace".data
    email := some "ada@example.com".data
    phone := some "1".data
    position := some "Engineer".data
    years_experience := some 5
    expected_salary := none
    location := none
    linkedin := none
    cover_letter := none
    consent := some true
    referred_toggle := some true
    ref_name := some "Grace Hopper".data
    ref_emp_id := some "E42".data
    ref_email := some "grace@example.com".data
    resume_file := some ⟨[1, 2, 3], "application/pdf".data⟩ }

/-- A concrete configuration for witnesses. -/
def cfg0 : Config := ⟨"hr@example.com".data, "Recruiting Team".data⟩

/-- A concrete float renderer for witnesses. -/
def render0 : ℚ → Str := fun _ => "5.0".data

/-- A send oracle under which only the applicant confirmation (subject
starting with `A`) returns normally. -/
def sendOkSecondFails : BuiltEmail → Bool := fun m => m.subject.head? == some 'A'

/-- Witness for C1: on the valid referred session with the HR send
raising, exactly the applicant and HR sends are attempted — the referrer
notice, though planned, never is. -/
theorem c1_pipeline_error_propagation_witness :
    (runSubmission cfg0 render0 100 "ts".data validSession none
      ⟨true, true, sendOkSecondFails⟩).attempted =
      [applicantMsg cfg0 (extract validSession) (create_app_id 100),
       hrMsg cfg0 (extract validSession) (create_app_id 100) "ts".data render0
         (⟨[1, 2, 3], "application/pdf".data⟩ : UploadedFile).content
         (resume_name_of 100 (extract validSession).full_name)] :=
  ((c1_pipeline_error_propagation cfg0 render0 100 "ts".data validSession none
    sendOkSecondFails ⟨[1, 2, 3], "application/pdf".data⟩ (by decide) (by decide)).2.2.2.2.2.2
    (by decide) (by decide)).1

/-- C8 (amended): the HR body opens with the fixed eleven label:value
lines (id, timestamp, name, email, phone, position, experience, salary,
location, linkedin, referred — `resume_filename` is never included);
the three referrer lines follow exactly when referred; the
notes/cover-letter text block is appended exactly when non-empty; and
the message carries exactly one attachment, the resume bytes under the
generated resume filename. -/
theorem c8_hr_body_and_attachment :
    ∀ (cfg : Config) (f : Fields) (appId tsIso : Str) (render : ℚ → Str)
      (bytes : Bytes) (rn : Str),
      ((hrBodyLines f appId tsIso render).take 11 = hrBaseLines f appId tsIso render) ∧
      (f.referred = true →
        (hrBodyLines f appId tsIso render).drop 11 =
          hrRefLines f ++ (if ¬ f.cover_letter = [] then hrCoverLines f else [])) ∧
      (f.referred = false →
        (hrBodyLines f appId tsIso render).drop 11 =
          (if ¬ f.cover_letter = [] then hrCoverLines f else [])) ∧
      (¬ bytes = [] → ¬ rn = [] →
        (hrMsg cfg f appId tsIso render bytes rn).attach =
          some (bytes, "application".data, "pdf".data, rn)) := by
  intro cfg f appId tsIso render bytes rn
  have hlen : (hrBaseLines f appId tsIso render).length = 11 := rfl
  refine ⟨?_, ?_, ?_, ?_⟩
  · unfold hrBodyLines
    rw [List.append_assoc]
    exact List.take_left' hlen
  · intro h
    unfold hrBodyLines
    rw [List.append_assoc, List.drop_left' hlen, if_pos h]
  · intro h
    unfold hrBodyLines
    rw [List.append_assoc, List.drop_left' hlen, if_neg (by simp [h])]
    rfl
  · intro hb hn
    unfold hrMsg send_email_message
    simp only
    rw [if_neg (by simp [hb, hn])]
    rfl

/-- Witness for C8 at a referred record with a cover letter. -/
theorem c8_hr_body_and_attachment_witness :
    (hrBodyLines (extract validSession) "id".data "ts".data render0).drop 11 =
      hrRefLines (extract validSession) ++
        (if ¬ (extract validSession).cover_letter = [] then
          hrCoverLines (extract validSession) else []) :=
  (c8_hr_body_and_attachment cfg0 (extract validSession) "id".data "ts".data render0
    [1] "r.pdf".data).2.1 (by decide)

/-- Fields of a plain successful, non-referred submission without
notes. -/
def cexFieldsC8 : Fields :=
  { full_name := "Ada".data
    email := "ada@example.com".data
    phone := "1".data
    position := "Engineer".data
    years_experience := some 5
    expected_salary := []
    location := []
    linkedin := []
    cover_letter := []
    consent := true
    referred := false
    ref_name := []
    ref_emp_id := []
    ref_email := []
    resume := some ⟨[1, 2, 3], "application/pdf".data⟩ }

/-- Counterexample to C8 as stated: the HR body of this record has only
eleven lines though the record has sixteen fields, and the value of its
`resume_filename` field occurs nowhere in the body (not even as a
substring) — the body does not enumerate every record field.  The
message's attachment slot holds exactly the resume; `send_email` has a
single attachment parameter and the form has no cover-letter file, so no
second attachment can ever be carried. -/
theorem c8_counterexample :
    (hrBodyLines cexFieldsC8 (create_app_id 100) "ts".data render0).length = 11 ∧
    hasSub (resume_name_of 100 cexFieldsC8.full_name)
      (joinNL (hrBodyLines cexFieldsC8 (create_app_id 100) "ts".data render0)) = false ∧
    (hrMsg cfg0 cexFieldsC8 (create_app_id 100) "ts".data render0 [1, 2, 3]
      (resume_name_of 100 cexFieldsC8.full_name)).attach =
      some ([1, 2, 3], "application".data, "pdf".data,
        resume_name_of 100 cexFieldsC8.full_name) := by
  refine ⟨by decide, by decide, by decide⟩

/-- End of input ends the current field. -/
theorem csvScan_nil (st : CsvSt) (acc : List Str) (cur : Str) :
    csvScan st acc cur [] = acc ++ [cur] := by
  rw [csvScan]

/-- A quote while quoted switches to the after-quote state. -/
theorem csvScan_q_dq (acc : List Str) (cur rest : Str) :
    csvScan .quoted acc cur (dq :: rest) = csvScan .afterQuote acc cur rest := by
  rw [csvScan]
  simp

/-- Any other character while quoted is accumulated. -/
theorem csvScan_q_other {c : Char} (h : ¬ c = dq) (acc : List Str) (cur rest : Str) :
    csvScan .quoted acc cur (c :: rest) = csvScan .quoted acc (cur ++ [c]) rest := by
  rw [csvScan]
  simp [h]

/-- A second quote right after a quote is an escaped literal quote. -/
theorem csvScan_aq_dq (acc : List Str) (cur rest : Str) :
    csvScan .afterQuote acc cur (dq :: rest) = csvScan .quoted acc (cur ++ [dq]) rest := by
  rw [csvScan]
  simp

/-- A delimiter after the closing quote ends the field. -/
theorem csvScan_aq_comma (acc : List Str) (cur rest : Str) :
    csvScan .afterQuote acc cur (',' :: rest) = csvScan .fieldStart (acc ++ [cur]) [] rest := by
  rw [csvScan]
  simp [show ¬ (',' : Char) = dq by decide]

/-- A delimiter in an unquoted field ends the field. -/
theorem csvScan_u_comma (acc : List Str) (cur rest : Str) :
    csvScan .unquoted acc cur (',' :: rest) = csvScan .fieldStart (acc ++ [cur]) [] rest := by
  rw [csvScan]
  simp

/-- Any non-delimiter non-terminator character in an unquoted field is
accumulated. -/
theorem csvScan_u_other {c : Char} (h1 : ¬ c = ',') (h2 : ¬ c = '\r') (h3 : ¬ c = '\n')
    (acc : List Str) (cur rest : Str) :
    csvScan .unquoted acc cur (c :: rest) = csvScan .unquoted acc (cur ++ [c]) rest := by
  rw [csvScan]
  simp [h1, h2, h3]

/-- A quote at field start opens a quoted field. -/
theorem csvScan_fs_dq (acc : List Str) (cur rest : Str) :
    csvScan .fieldStart acc cur (dq :: rest) = csvScan .quoted acc cur rest := by
  rw [csvScan]
  simp

/-- A delimiter at field start emits an empty field. -/
theorem csvScan_fs_comma (acc : List Str) (cur rest : Str) :
    csvScan .fieldStart acc cur (',' :: rest) = csvScan .fieldStart (acc ++ [cur]) [] rest := by
  rw [csvScan]
  simp [show ¬ (',' : Char) = dq by decide]

/-- Any other character at field start opens an unquoted field. -/
theorem csvScan_fs_other {c : Char} (h0 : ¬ c = dq) (h1 : ¬ c = ',') (h2 : ¬ c = '\r')
    (h3 : ¬ c = '\n') (acc : List Str) (cur rest : Str) :
    csvScan .fieldStart acc cur (c :: rest) = csvScan .unquoted acc (cur ++ [c]) rest := by
  rw [csvScan]
  simp [h0, h1, h2, h3]

/-- Scanning a special-character-free chunk in an unquoted field just
accumulates it. -/
theorem scan_unquoted_chunk : ∀ (u : Str), (∀ c ∈ u, csvSpecial c = false) →
    ∀ acc cur rest, csvScan .unquoted acc cur (u ++ rest) =
      csvScan .unquoted acc (cur ++ u) rest := by
  intro u
  induction u with
  | nil =>
    intro _ acc cur rest
    simp
  | cons c t ih =>
    intro hu acc cur rest
    have hc := hu c (by simp)
    unfold csvSpecial at hc
    simp only [Bool.or_eq_false_iff, decide_eq_false_iff_not] at hc
    rw [List.cons_append, csvScan_u_other hc.1.1.1 hc.1.2 hc.2]
    rw [ih (fun x hx => hu x (by simp [hx])) acc (cur ++ [c]) rest]
    simp

/-- Scanning the quote-escaped body of a field inside quotes
accumulates the unescaped text and stops after the closing quote. -/
theorem scan_quoted_chunk : ∀ (f : Str) (acc : List Str) (cur rest : Str),
    csvScan .quoted acc cur (escQuotes f ++ dq :: rest) =
      csvScan .afterQuote acc (cur ++ f) rest := by
  intro f
  induction f with
  | nil =>
    intro acc cur rest
    simp only [escQuotes, List.flatMap_nil, List.nil_append]
    rw [csvScan_q_dq]
    simp
  | cons c t ih =>
    intro acc cur rest
    by_cases hc : c = dq
    · subst hc
      have he : escQuotes (dq :: t) = dq :: dq :: escQuotes t := by
        simp [escQuotes]
      rw [he, List.cons_append, List.cons_append, csvScan_q_dq, csvScan_aq_dq, ih]
      simp
    · have he : escQuotes (c :: t) = c :: escQuotes t := by
        simp [escQuotes, hc]
      rw [he, List.cons_append, csvScan_q_other hc, ih]
      simp

/-- Unpacking of a non-special character. -/
theorem notSpecial_parts {c : Char} (h : csvSpecial c = false) :
    ¬ c = ',' ∧ ¬ c = dq ∧ ¬ c = '\r' ∧ ¬ c = '\n' := by
  unfold csvSpecial at h
  simp only [Bool.or_eq_false_iff, decide_eq_false_iff_not] at h
  exact ⟨h.1.1.1, h.1.1.2, h.1.2, h.2⟩

/-- A field the encoder leaves unquoted has no special characters. -/
theorem specialFree_of_any {f : Str} (hq : ¬ f.any csvSpecial = true) :
    ∀ c ∈ f, csvSpecial c = false := by
  intro c hcm
  cases hb : csvSpecial c with
  | false => rfl
  | true => exact absurd (List.any_eq_true.mpr ⟨c, hcm, hb⟩) hq

/-- A special-character-free chunk ending the input closes the field. -/
theorem scan_unquoted_eof {u : Str} (hu : ∀ c ∈ u, csvSpecial c = false)
    (acc : List Str) (cur : Str) :
    csvScan .unquoted acc cur u = acc ++ [cur ++ u] := by
  have h := scan_unquoted_chunk u hu acc cur []
  rw [List.append_nil] at h
  rw [h, csvScan_nil]

/-- Scanning the encoding of a nonempty field list from the start of a
record yields exactly those fields, appended to the fields already
read. -/
theorem scan_encodeFields : ∀ (fs : List Str), ¬ fs = [] → ∀ acc : List Str,
    csvScan .fieldStart acc [] (csvEncodeFields fs) = acc ++ fs := by
  intro fs
  induction fs with
  | nil =>
    intro h
    exact absurd rfl h
  | cons f fs' ih =>
    intro _ acc
    cases fs' with
    | nil =>
      show csvScan .fieldStart acc [] (csvEncodeField f) = acc ++ [f]
      unfold csvEncodeField
      by_cases hq : f.any csvSpecial = true
      · rw [if_pos hq]
        simp only [List.cons_append]
        rw [csvScan_fs_dq, scan_quoted_chunk f acc [] [], csvScan_nil]
        simp
      · rw [if_neg hq]
        have hf := specialFree_of_any hq
        cases f with
        | nil => rw [csvScan_nil]
        | cons c t =>
          have hc := notSpecial_parts (hf c (by simp))
          rw [csvScan_fs_other hc.2.1 hc.1 hc.2.2.1 hc.2.2.2,
            scan_unquoted_eof (fun x hx => hf x (by simp [hx]))]
          simp
    | cons f2 fs'' =>
      show csvScan .fieldStart acc []
        (csvEncodeField f ++ ',' :: csvEncodeFields (f2 :: fs'')) = acc ++ (f :: f2 :: fs'')
      unfold csvEncodeField
      by_cases hq : f.any csvSpecial = true
      · rw [if_pos hq]
        simp only [List.append_assoc, List.cons_append, List.nil_append]
        rw [csvScan_fs_dq, scan_quoted_chunk, csvScan_aq_comma]
        rw [ih (by simp)]
        simp
      · rw [if_neg hq]
        have hf := specialFree_of_any hq
        cases f with
        | nil =>
          simp only [List.nil_append]
          rw [csvScan_fs_comma, ih (by simp)]
          simp
        | cons c t =>
          have hc := notSpecial_parts (hf c (by simp))
          rw [List.cons_append, csvScan_fs_other hc.2.1 hc.1 hc.2.2.1 hc.2.2.2,
            scan_unquoted_chunk t (fun x hx => hf x (by simp [hx])), csvScan_u_comma,
            ih (by simp)]
          simp

/-- The encoding of a field list is empty only for no fields or for the
single empty unquoted field. -/
theorem csvEncodeFields_ne_nil {fs : List Str} (h1 : ¬ fs = []) (h2 : ¬ fs = [[]]) :
    ¬ csvEncodeFields fs = [] := by
  cases fs with
  | nil => exact absurd rfl h1
  | cons f fs' =>
    cases fs' with
    | nil =>
      show ¬ csvEncodeField f = []
      unfold csvEncodeField
      by_cases hq : f.any csvSpecial = true
      · rw [if_pos hq]
        simp
      · rw [if_neg hq]
        intro hf
        rw [hf] at h2
        exact h2 rfl
    | cons f2 fs'' =>
      show ¬ csvEncodeField f ++ ',' :: csvEncodeFields (f2 :: fs'') = []
      simp

/-- Round-trip at the record level: parsing the encoding of any nonempty
field list other than the lone empty field returns exactly the original
fields. -/
theorem csvParseRow_enc {fs : List Str} (h1 : ¬ fs = []) (h2 : ¬ fs = [[]]) :
    csvParseRow (csvEncodeFields fs) = fs := by
  unfold csvParseRow
  rcases he : csvEncodeFields fs with _ | ⟨c, rest⟩
  · exact absurd he (csvEncodeFields_ne_nil h1 h2)
  · show csvScan .fieldStart [] [] (c :: rest) = fs
    rw [← he]
    have := scan_encodeFields fs h1 []
    simpa using this

/-- Appending rows to an existing file only ever appends encoded rows. -/
theorem runAppends_some (rows : List (List Str)) :
    ∀ c : Str, runAppends (some c) rows = some (c ++ (rows.map csvEncodeRow).flatten) := by
  induction rows with
  | nil =>
    intro c
    simp [runAppends]
  | cons r rs ih =>
    intro c
    rw [runAppends, ih]
    simp [append_application_row, write_csv_header_if_needed]

/-- C6: starting from a nonexistent file, the header row is written
exactly once, at creation, and every subsequent write appends exactly
one encoded row (first three conjuncts); each row carries as many values
as the fixed header has columns, in the record's field order (fourth
conjunct); and a row written with the standard quoting is re-read
byte-for-byte identical — in particular every record row, so every
field value (the rendered `years_experience` string included) survives
the round-trip exactly (last two conjuncts). -/
theorem c6_csv_store_roundtrip :
    (∀ row, append_application_row none row = headerLine ++ csvEncodeRow row) ∧
    (∀ c row, append_application_row (some c) row = c ++ csvEncodeRow row) ∧
    (∀ (r : List Str) (rs : List (List Str)),
      runAppends none (r :: rs) =
        some (headerLine ++ ((r :: rs).map csvEncodeRow).flatten)) ∧
    (∀ r : Record, (recordRow r).length = headerFields.length) ∧
    (∀ fs : List Str, ¬ fs = [] → ¬ fs = [[]] →
      csvParseRow (csvEncodeFields fs) = fs) ∧
    (∀ r : Record, csvParseRow (csvEncodeFields (recordRow r)) = recordRow r) := by
  refine ⟨fun row => rfl, fun c row => rfl, ?_, fun r => rfl,
    fun fs h1 h2 => csvParseRow_enc h1 h2, ?_⟩
  · intro r rs
    rw [runAppends, runAppends_some]
    simp [append_application_row, write_csv_header_if_needed]
  · intro r
    apply csvParseRow_enc
    · intro h
      have := congrArg List.length h
      simp [recordRow] at this
    · intro h
      have := congrArg List.length h
      simp [recordRow] at this

/-- A field exercising the quoting: delimiter, quote and newline. -/
def trickyField : Str := "b,".data ++ dq :: "c\r\nd".data

/-- Witness for C6: a two-field row with embedded delimiter, quote and
newline survives the encode/parse round-trip. -/
theorem c6_csv_store_roundtrip_witness :
    csvParseRow (csvEncodeFields ["a".data, trickyField]) = ["a".data, trickyField] :=
  c6_csv_store_roundtrip.2.2.2.2.1 ["a".data, trickyField] (by decide) (by decide)
